import Mathlib

/-!
Shallow embedding of the item-translation engine of the winapi-zig
translator (src/main.rs).  Rust data types from `syn` that the program
consumes are modelled as Lean inductive types carrying exactly the fields
the program reads; each Rust function is translated to a Lean function of
the same name.  Printing to stdout is modelled by returning the list of
emitted lines; `Result<(), Error>` together with the printed lines becomes
the `TR` type below, whose `panicked` constructor models a Rust panic
(reached via `unwrap()` in the source).
-/

namespace WinapiZig

/-- The error enum of src/main.rs (the variants the core uses). -/
inductive Error where
  | incorrectUsage
  | readFile
  | parseFile
  | unhandled (name : String)
  | nyi
deriving DecidableEq, Repr

/-- `syn::PathArguments`: either no arguments, or angle-bracketed /
parenthesized generic arguments. -/
inductive PathArguments where
  | noArguments
  | angleBracketed
  | parenthesized
deriving DecidableEq, Repr

/-- One segment of a `syn::Path`: an identifier plus its arguments. -/
structure PathSegment where
  ident : String
  arguments : PathArguments
deriving DecidableEq, Repr

/-- `syn::Path`: a sequence of segments. -/
structure SynPath where
  segments : List PathSegment
deriving DecidableEq, Repr

/-- `syn::Type`, restricted to the shapes src/main.rs distinguishes:
`Type::Path`, `Type::Ptr` (with presence of the `const` token), and a
catch-all for every other shape (arrays, slices, generics, tuples, ...). -/
inductive Ty where
  | path (path : SynPath)
  | ptr (isConst : Bool) (elem : Ty)
  | otherTy
deriving DecidableEq, Repr

/-- `syn::ReturnType`. -/
inductive ReturnType where
  | default
  | ty (t : Ty)
deriving DecidableEq, Repr

/-- `syn::Visibility` (the program only tests for `Public`). -/
inductive Visibility where
  | public
  | restricted
  | inherited
deriving DecidableEq, Repr

/-- `syn::Lit`, restricted to what `expr_to_zig` distinguishes; the `int`
payload is the literal text produced by `to_string()`. -/
inductive Lit where
  | int (text : String)
  | otherLit
deriving DecidableEq, Repr

/-- `syn::Expr`, restricted to what `expr_to_zig` distinguishes. -/
inductive Expr where
  | lit (l : Lit)
  | otherExpr
deriving DecidableEq, Repr

/-- `fn path_as_single_ident` of src/main.rs. -/
def path_as_single_ident (path : SynPath) : Option String :=
  match path.segments with
  | [seg] => if seg.arguments = PathArguments.noArguments then some seg.ident else none
  | _ => none

/-- `fn ty_to_zig` of src/main.rs: single-segment paths with no arguments
are renamed through the fixed table; pointers recurse with a `?*` wrapper
and a `const ` marker; everything else is `Err(Error::Nyi)`. -/
def ty_to_zig : Ty → Except Error String
  | Ty.path p =>
    match p.segments with
    | [seg] =>
      if seg.arguments = PathArguments.noArguments then
        let ident :=
          match seg.ident with
          | "c_uchar" => "u8"
          | "c_char" => "i8"
          | "c_schar" => "i8"
          | "__uint64" => "u64"
          | "__int64" => "i64"
          | other => other
        Except.ok ident
      else Except.error Error.nyi
    | _ => Except.error Error.nyi
  | Ty.ptr isConst elem => do
    let inner ← ty_to_zig elem
    pure ("?*" ++ (if isConst then "const " else "") ++ inner)
  | Ty.otherTy => Except.error Error.nyi

/-- `fn ret_ty_to_zig` of src/main.rs. -/
def ret_ty_to_zig : ReturnType → Except Error String
  | ReturnType.ty t => ty_to_zig t
  | ReturnType.default => Except.ok ""

/-- `fn vis_to_zig` of src/main.rs. -/
def vis_to_zig (v : Visibility) : String :=
  match v with
  | Visibility.public => "pub "
  | _ => ""

/-- `fn expr_to_zig` of src/main.rs. -/
def expr_to_zig (e : Expr) : String :=
  match e with
  | Expr.lit (Lit.int i) => i
  | _ => "???"

/-- A single-segment named scalar type with no generic arguments. -/
def scalarTy (name : String) : Ty :=
  Ty.path ⟨[⟨name, PathArguments.noArguments⟩]⟩

/-- A type is a pointer chain terminating in a translatable named scalar
(single segment, no arguments). -/
def isScalarChain : Ty → Bool
  | Ty.path p =>
    match p.segments with
    | [seg] => seg.arguments = PathArguments.noArguments
    | _ => false
  | Ty.ptr _ e => isScalarChain e
  | Ty.otherTy => false

/-- `syn::UseTree`, restricted to the shapes `expand_use_tree`
distinguishes: a path segment followed by a subtree, a leaf name, a brace
group, and a catch-all (rename, glob). -/
inductive UseTree where
  | path (ident : String) (tree : UseTree)
  | name (ident : String)
  | group (items : List UseTree)
  | otherUse
deriving Repr

/-- One fully expanded use path (`type UsePath = Vec<String>`). -/
abbrev UsePath := List String

mutual

/-- The inner `expand_rec` of `fn expand_use_tree` in src/main.rs.  The
mutable output vector of the source becomes the returned list; pushes
happen in the same order. -/
def expand_rec : UseTree → List String → Except Error (List UsePath)
  | UseTree.path i t, pre => expand_rec t (pre ++ [i])
  | UseTree.name i, pre => Except.ok [pre ++ [i]]
  | UseTree.group ts, pre => expand_group ts pre
  | UseTree.otherUse, _ => Except.error Error.nyi

/-- The `for tree in &g.items` loop of `expand_rec`, in order (the `?`
operator short-circuits on the first error). -/
def expand_group : List UseTree → List String → Except Error (List UsePath)
  | [], _ => Except.ok []
  | t :: ts, pre =>
    match expand_rec t pre with
    | Except.error e => Except.error e
    | Except.ok a =>
      match expand_group ts pre with
      | Except.error e => Except.error e
      | Except.ok b => Except.ok (a ++ b)

end

/-- `fn expand_use_tree` of src/main.rs. -/
def expand_use_tree (u : UseTree) : Except Error (List UsePath) :=
  expand_rec u []

/-- The translation context `struct Cx` of src/main.rs.  The
`HashSet<String>` is modelled as a duplicate-free list used only through
membership and insertion. -/
structure Cx where
  link_name : String
  toplevel_imports : List String
deriving DecidableEq, Repr

/-- `HashSet::insert`: membership-preserving insertion. -/
def insertSet (s : List String) (x : String) : List String :=
  if s.contains x then s else x :: s

/-- Result of translating one item: the lines printed to stdout together
with the outcome.  `panicked` models a Rust panic (an `unwrap()` failing);
`err` models `Err(e)` after having already printed `lines`; `ok` models
`Ok(())` having printed `lines`. -/
inductive TR where
  | panicked (lines : List String)
  | err (e : Error) (lines : List String)
  | ok (lines : List String)
deriving DecidableEq, Repr

/-- The lines printed to stdout, whatever the outcome. -/
def TR.lines : TR → List String
  | TR.panicked l => l
  | TR.err _ l => l
  | TR.ok l => l

/-- Prepend already-printed lines to a later result. -/
def TR.append (pre : List String) : TR → TR
  | TR.panicked l => TR.panicked (pre ++ l)
  | TR.err e l => TR.err e (pre ++ l)
  | TR.ok l => TR.ok (pre ++ l)

/-- `struct ItemUse` (the fields src/main.rs reads). -/
structure ItemUse where
  vis : Visibility
  tree : UseTree

/-- `struct ItemConst` (the fields src/main.rs reads). -/
structure ItemConst where
  vis : Visibility
  ident : String
  expr : Expr
deriving Repr

/-- `struct ItemType` (the fields src/main.rs reads). -/
structure ItemType where
  vis : Visibility
  ident : String
  ty : Ty
deriving Repr

/-- `syn::Pat`, restricted to what `fn_arg_to_zig` distinguishes. -/
inductive Pat where
  | ident (name : String)
  | wild
  | otherPat
deriving DecidableEq, Repr

/-- `syn::PatType`: a pattern with a type ascription. -/
structure PatType where
  pat : Pat
  ty : Ty
deriving DecidableEq, Repr

/-- `syn::FnArg`: a typed argument or a `self` receiver. -/
inductive FnArg where
  | typed (t : PatType)
  | receiver
deriving DecidableEq, Repr

/-- `syn::Signature` (the fields src/main.rs reads). -/
structure Signature where
  ident : String
  inputs : List FnArg
  output : ReturnType
deriving DecidableEq, Repr

/-- `syn::ForeignItemFn` (the fields src/main.rs reads). -/
structure ForeignItemFn where
  vis : Visibility
  sig : Signature
deriving DecidableEq, Repr

/-- `syn::ForeignItem`: a function, or any other foreign item; the payload
of `otherForeign` is the debug-format dump the program prints for it. -/
inductive ForeignItem where
  | fn (f : ForeignItemFn)
  | otherForeign (dump : String)
deriving DecidableEq, Repr

/-- `struct ItemForeignMod` (the fields src/main.rs reads). -/
structure ItemForeignMod where
  items : List ForeignItem
deriving DecidableEq, Repr

/-- `syn::ItemStruct` as produced by `syn::parse2` inside
`struct_macro_to_zig` (the fields the program reads): the struct name and
its fields, each with an optional name and a type. -/
structure StructField where
  ident : Option String
  ty : Ty
deriving DecidableEq, Repr

structure ItemStruct where
  ident : String
  fields : List StructField
deriving DecidableEq, Repr

/-- `proc_macro2::TokenTree`, restricted to what `declare_handle_to_zig`
distinguishes: an identifier or any other token. -/
inductive TokenTree where
  | ident (name : String)
  | otherTok
deriving DecidableEq, Repr

/-- `syn::ItemMacro` (the fields src/main.rs reads).  `syn::parse2` is an
external collaborator (the front-end parser crate, not part of src/), so
the result it would return on `tokens` when the STRUCT branch re-parses
them is carried alongside as `parsed`: `none` models a parse failure. -/
structure ItemMac where
  path : SynPath
  tokens : List TokenTree
  parsed : Option ItemStruct

/-- `syn::ItemFn` (the only field src/main.rs reads is `sig.ident`). -/
structure ItemFn where
  sig : Signature
deriving DecidableEq, Repr

/-- `syn::Item`, restricted to the variants `item_to_zig` distinguishes;
the payload of `otherItem` is the debug-format dump printed for it. -/
inductive Item where
  | use (u : ItemUse)
  | type (t : ItemType)
  | const (c : ItemConst)
  | foreignMod (fm : ItemForeignMod)
  | mac (m : ItemMac)
  | fn (f : ItemFn)
  | otherItem (dump : String)

/-- Rust `Vec::join(".")` on a list of strings. -/
def joinDot : List String → String
  | [] => ""
  | [s] => s
  | s :: rest => s ++ "." ++ joinDot rest

/-- The module-import declaration `use_to_zig` emits for a top-level
module name. -/
def importLine (m : String) : String :=
  "const " ++ m ++ " = @import(\x22" ++ m ++ ".zig\x22);"

/-- The per-symbol alias declaration `use_to_zig` emits for one expanded
path. -/
def aliasLine (vis : String) (path : UsePath) : String :=
  vis ++ "const " ++ path.getLastD "" ++ " = " ++ joinDot path ++ ";"

/-- The loop body of `fn use_to_zig` over the expanded paths, threading
the context.  `path[0]` and `path.last().unwrap()` are total here because
expansion only produces non-empty paths; they are modelled with default
values. -/
def use_paths_to_zig (vis : String) : List UsePath → Cx → List String × Cx
  | [], cx => ([], cx)
  | path :: rest, cx =>
    let toplevel := path.headD ""
    if toplevel = "ctypes" then use_paths_to_zig vis rest cx
    else
      let newLines :=
        if cx.toplevel_imports.contains toplevel then []
        else ["", importLine toplevel]
      let cx1 : Cx := { cx with toplevel_imports := insertSet cx.toplevel_imports toplevel }
      let r := use_paths_to_zig vis rest cx1
      (newLines ++ [aliasLine vis path] ++ r.1, r.2)

/-- `fn use_to_zig` of src/main.rs. -/
def use_to_zig (u : ItemUse) (cx : Cx) : TR × Cx :=
  match expand_use_tree u.tree with
  | Except.error e => (TR.err e [], cx)
  | Except.ok paths =>
    let r := use_paths_to_zig (vis_to_zig u.vis) paths cx
    (TR.ok r.1, r.2)

/-- `fn const_to_zig` of src/main.rs (always succeeds, one line). -/
def const_to_zig (c : ItemConst) : String :=
  vis_to_zig c.vis ++ "const " ++ c.ident ++ " = " ++ expr_to_zig c.expr ++ ";"

/-- `fn type_to_zig` of src/main.rs: the type is translated before the
line is printed (it is an argument of the `println!`), so a failing type
yields an error with nothing printed. -/
def type_to_zig (t : ItemType) : TR :=
  match ty_to_zig t.ty with
  | Except.error e => TR.err e []
  | Except.ok s => TR.ok [vis_to_zig t.vis ++ "const " ++ t.ident ++ " = " ++ s ++ ";"]

/-- The name a formal parameter gets in `fn_arg_to_zig`: the identifier of
an ident pattern, the placeholder for a wildcard, and the initial empty
string for any other pattern. -/
def patName : Pat → String
  | Pat.ident i => i
  | Pat.wild => "_"
  | Pat.otherPat => ""

/-- `fn fn_arg_to_zig` of src/main.rs: a typed argument prints exactly one
parameter line (the type is translated before printing, so failure prints
nothing); a receiver argument prints nothing. -/
def fn_arg_to_zig (arg : FnArg) : TR :=
  match arg with
  | FnArg.typed t =>
    match ty_to_zig t.ty with
    | Except.error e => TR.err e []
    | Except.ok s => TR.ok ["    " ++ patName t.pat ++ ": " ++ s ++ ","]
  | FnArg.receiver => TR.ok []

/-- The `for arg in &f.sig.inputs` loop of `foreign_mod_to_zig`. -/
def foreign_args_to_zig : List FnArg → TR
  | [] => TR.ok []
  | a :: rest =>
    match fn_arg_to_zig a with
    | TR.ok l => TR.append l (foreign_args_to_zig rest)
    | r => r

/-- One iteration of the item loop of `fn foreign_mod_to_zig`. -/
def foreign_item_to_zig (link : String) : ForeignItem → TR
  | ForeignItem.fn f =>
    let header :=
      vis_to_zig f.vis ++ "extern \x22" ++ link ++ "\x22 fn " ++ f.sig.ident ++ " ("
    match foreign_args_to_zig f.sig.inputs with
    | TR.ok l =>
      match ret_ty_to_zig f.sig.output with
      | Except.error e => TR.err e (header :: l)
      | Except.ok r => TR.ok (header :: l ++ [") callconv(.Stdcall) " ++ r ++ ";"])
    | TR.err e l => TR.err e (header :: l)
    | TR.panicked l => TR.panicked (header :: l)
  | ForeignItem.otherForeign dump => TR.ok [dump]

/-- The `for item in &fm.items` loop of `fn foreign_mod_to_zig`. -/
def foreign_items_to_zig (link : String) : List ForeignItem → TR
  | [] => TR.ok []
  | i :: rest =>
    match foreign_item_to_zig link i with
    | TR.ok l => TR.append l (foreign_items_to_zig link rest)
    | r => r

/-- `fn foreign_mod_to_zig` of src/main.rs. -/
def foreign_mod_to_zig (fm : ItemForeignMod) (cx : Cx) : TR :=
  foreign_items_to_zig cx.link_name fm.items

/-- The record header line emitted by `struct_macro_to_zig`. -/
def structHeader (s : ItemStruct) : String :=
  "pub const " ++ s.ident ++ " = extern struct \x7b"

/-- The field loop of `struct_macro_to_zig`: `f.ident.as_ref().unwrap()`
panics on an unnamed field (it is evaluated before the type, as the
earlier `println!` argument); a failing field type propagates as an
error. -/
def struct_fields_to_zig : List StructField → TR
  | [] => TR.ok []
  | f :: fs =>
    match f.ident with
    | none => TR.panicked []
    | some name =>
      match ty_to_zig f.ty with
      | Except.error e => TR.err e []
      | Except.ok t =>
        TR.append ["    " ++ name ++ ": " ++ t ++ ","] (struct_fields_to_zig fs)

/-- `fn struct_macro_to_zig` of src/main.rs.  Its real input is a token
stream handed to the external `syn::parse2`; the function is modelled over
that parse result, where `none` (a token stream that does not parse as a
struct item) hits `.unwrap()` and panics. -/
def struct_macro_to_zig (parsed : Option ItemStruct) : TR :=
  match parsed with
  | none => TR.panicked []
  | some s =>
    match struct_fields_to_zig s.fields with
    | TR.panicked l => TR.panicked (structHeader s :: l)
    | TR.err e l => TR.err e (structHeader s :: l)
    | TR.ok l => TR.ok (structHeader s :: l ++ ["\x7d;"])

/-- `fn declare_handle_to_zig` of src/main.rs: the first token and the
token after the (unvalidated, merely skipped) second token must exist, or
`Err(Error::Nyi)`; if both are identifiers two lines are printed, and
otherwise nothing is printed and the call still succeeds. -/
def declare_handle_to_zig (toks : List TokenTree) : Except Error (List String) :=
  match toks with
  | h :: _ :: o :: _ =>
    match h, o with
    | TokenTree.ident hn, TokenTree.ident onm =>
      Except.ok
        ["pub const " ++ onm ++ " = @Type(.Opaque);",
         "pub const " ++ hn ++ " = ?*" ++ onm ++ ";"]
    | _, _ => Except.ok []
  | _ => Except.error Error.nyi

/-- `fn macro_to_zig` of src/main.rs. -/
def macro_to_zig (m : ItemMac) : TR :=
  match path_as_single_ident m.path with
  | some id =>
    match id with
    | "STRUCT" => struct_macro_to_zig m.parsed
    | "DECLARE_HANDLE" =>
      match declare_handle_to_zig m.tokens with
      | Except.error e => TR.err e []
      | Except.ok l => TR.ok l
    | _ => TR.err (Error.unhandled id) []
  | none => TR.err Error.nyi []

/-- `fn fn_to_zig` of src/main.rs. -/
def fn_to_zig (f : ItemFn) : TR :=
  TR.err (Error.unhandled f.sig.ident) []

/-- `fn item_to_zig` of src/main.rs. -/
def item_to_zig (item : Item) (cx : Cx) : TR × Cx :=
  match item with
  | Item.use u => use_to_zig u cx
  | Item.type t => (type_to_zig t, cx)
  | Item.const c => (TR.ok [const_to_zig c], cx)
  | Item.foreignMod fm => (foreign_mod_to_zig fm cx, cx)
  | Item.mac m => (macro_to_zig m, cx)
  | Item.fn f => (fn_to_zig f, cx)
  | Item.otherItem dump => (TR.ok [dump], cx)

/-- `fn wrap_item_to_zig` of src/main.rs: `Unhandled` and `Nyi` errors are
softened into a comment line and success; everything else passes
through.  The lines already printed by the failing translator stay. -/
def wrap_item_to_zig (item : Item) (cx : Cx) : TR × Cx :=
  match item_to_zig item cx with
  | (TR.err (Error.unhandled name) l, cx2) =>
    (TR.ok (l ++ ["// Unhandled item: " ++ name]), cx2)
  | (TR.err Error.nyi l, cx2) =>
    (TR.ok (l ++ ["// Item not yet implemented"]), cx2)
  | r => r

/-- The `for item in &syntax.items` loop of `fn try_main`: each item goes
through `wrap_item_to_zig`; a hard error or a panic stops the run, keeping
the lines already printed. -/
def translate_items : List Item → Cx → TR × Cx
  | [], cx => (TR.ok [], cx)
  | i :: rest, cx =>
    match wrap_item_to_zig i cx with
    | (TR.ok l, cx2) =>
      let r := translate_items rest cx2
      (TR.append l r.1, r.2)
    | r => r

/-- The context `try_main` creates before the first item. -/
def initCx : Cx :=
  { link_name := "user32", toplevel_imports := [] }

/-! ### Spec-side definitions used to state the claims -/

/-- Did the translation step return `Err(_)` (as opposed to succeeding or
panicking)? -/
def TR.isErr : TR → Bool
  | TR.err _ _ => true
  | _ => false

/-- A `FnArg` that is a typed argument (not a `self` receiver). -/
def isTypedArg : FnArg → Bool
  | FnArg.typed _ => true
  | FnArg.receiver => false

/-- A token tree that is a plain identifier. -/
def isIdentTok : TokenTree → Bool
  | TokenTree.ident _ => true
  | TokenTree.otherTok => false

mutual

/-- A use tree built only from path-segment chains, leaf names and brace
groups (the shapes `expand_use_tree` supports). -/
def supportedTree : UseTree → Bool
  | UseTree.path _ t => supportedTree t
  | UseTree.name _ => true
  | UseTree.group ts => supportedTreeList ts
  | UseTree.otherUse => false

def supportedTreeList : List UseTree → Bool
  | [] => true
  | t :: ts => supportedTree t && supportedTreeList ts

end

mutual

/-- Modelled from the spec: the pure tree-to-list expansion, prefixing
each leaf with the accumulated path (for comparison with `expand_rec`). -/
def expandPure (pre : List String) : UseTree → List UsePath
  | UseTree.path i t => expandPure (pre ++ [i]) t
  | UseTree.name i => [pre ++ [i]]
  | UseTree.group ts => expandPureList pre ts
  | UseTree.otherUse => []

def expandPureList (pre : List String) : List UseTree → List UsePath
  | [] => []
  | t :: ts => expandPure pre t ++ expandPureList pre ts

end

mutual

/-- The number of leaf names of a use tree. -/
def leafCount : UseTree → Nat
  | UseTree.path _ t => leafCount t
  | UseTree.name _ => 1
  | UseTree.group ts => leafCountList ts
  | UseTree.otherUse => 0

def leafCountList : List UseTree → Nat
  | [] => 0
  | t :: ts => leafCount t + leafCountList ts

end

mutual

/-- The depths of the leaves of a use tree, in left-to-right order,
starting from an ambient depth `d` (path segments and leaf names add one
level each; groups add none). -/
def leafDepths (d : Nat) : UseTree → List Nat
  | UseTree.path _ t => leafDepths (d + 1) t
  | UseTree.name _ => [d + 1]
  | UseTree.group ts => leafDepthsList d ts
  | UseTree.otherUse => []

def leafDepthsList (d : Nat) : List UseTree → List Nat
  | [] => []
  | t :: ts => leafDepths d t ++ leafDepthsList d ts

end

/-- A use tree with no groups: a chain of path segments ending in a leaf
name. -/
def isChain : UseTree → Bool
  | UseTree.path _ t => isChain t
  | UseTree.name _ => true
  | _ => false

/-- The single path spelled by a group-free chain. -/
def chainSpell : UseTree → UsePath
  | UseTree.path i t => i :: chainSpell t
  | UseTree.name i => [i]
  | _ => []

/-! ### Basic equation lemmas -/

theorem fn_arg_receiver_eq : fn_arg_to_zig FnArg.receiver = TR.ok [] := rfl

theorem fn_arg_typed_ok (t : PatType) (s : String) (h : ty_to_zig t.ty = Except.ok s) :
    fn_arg_to_zig (FnArg.typed t) = TR.ok ["    " ++ patName t.pat ++ ": " ++ s ++ ","] := by
  simp only [fn_arg_to_zig, h]

theorem fn_arg_typed_err (t : PatType) (e : Error) (h : ty_to_zig t.ty = Except.error e) :
    fn_arg_to_zig (FnArg.typed t) = TR.err e [] := by
  simp only [fn_arg_to_zig, h]

theorem foreign_args_cons_ok (a : FnArg) (rest : List FnArg) (la : List String)
    (h : fn_arg_to_zig a = TR.ok la) :
    foreign_args_to_zig (a :: rest) = TR.append la (foreign_args_to_zig rest) := by
  simp only [foreign_args_to_zig, h]

theorem foreign_args_cons_err (a : FnArg) (rest : List FnArg) (e : Error) (la : List String)
    (h : fn_arg_to_zig a = TR.err e la) :
    foreign_args_to_zig (a :: rest) = TR.err e la := by
  simp only [foreign_args_to_zig, h]

/-! ### Claim theorems -/

/-- C8: every single-segment named scalar type with no generic arguments
translates successfully; the five names of the fixed rename table map to
their fixed-width replacements (`c_uchar` to `u8`, `c_char` and `c_schar`
to `i8`, `__uint64` to `u64`, `__int64` to `i64`), and every name absent
from the table passes through unchanged. -/
theorem c8_rename_table :
    (ty_to_zig (scalarTy "c_uchar") = Except.ok "u8" ∧
     ty_to_zig (scalarTy "c_char") = Except.ok "i8" ∧
     ty_to_zig (scalarTy "c_schar") = Except.ok "i8" ∧
     ty_to_zig (scalarTy "__uint64") = Except.ok "u64" ∧
     ty_to_zig (scalarTy "__int64") = Except.ok "i64") ∧
    (∀ name : String,
      name ∉ (["c_uchar", "c_char", "c_schar", "__uint64", "__int64"] : List String) →
      ty_to_zig (scalarTy name) = Except.ok name) := by
  constructor
  · exact ⟨rfl, rfl, rfl, rfl, rfl⟩
  · intro name h
    simp only [List.mem_cons, List.not_mem_nil, or_false, not_or] at h
    obtain ⟨h1, h2, h3, h4, h5⟩ := h
    simp only [ty_to_zig, scalarTy, if_pos rfl]
    split <;> simp_all

/-- Witness for C8 at the concrete pass-through name `HWND`. -/
theorem c8_rename_table_witness :
    ty_to_zig (scalarTy "HWND") = Except.ok "HWND" :=
  c8_rename_table.2 "HWND" (by decide)

/-- C7: a pointer chain terminating in a translatable named scalar always
translates successfully, and at every nesting level the emitted text is
the nullable-pointer marker `?*`, then the const-qualifier marker exactly
when that pointer level was const, then the pointee translation. -/
theorem c7_pointer_chain :
    (∀ t : Ty, isScalarChain t = true → ∃ s, ty_to_zig t = Except.ok s) ∧
    (∀ (c : Bool) (t : Ty) (s : String), ty_to_zig t = Except.ok s →
      ty_to_zig (Ty.ptr c t) =
        Except.ok ("?*" ++ (if c then "const " else "") ++ s)) := by
  have step : ∀ (c : Bool) (t : Ty) (s : String), ty_to_zig t = Except.ok s →
      ty_to_zig (Ty.ptr c t) =
        Except.ok ("?*" ++ (if c then "const " else "") ++ s) := by
    intro c t s h
    show (ty_to_zig t >>= fun inner =>
      pure ("?*" ++ (if c then "const " else "") ++ inner)) = _
    rw [h]
    rfl
  refine ⟨?_, step⟩
  intro t ht
  induction t with
  | path p =>
    simp only [isScalarChain] at ht
    match hs : p.segments with
    | [seg] =>
      rw [hs] at ht
      have harg : seg.arguments = PathArguments.noArguments := by simpa using ht
      simp only [ty_to_zig, hs, if_pos harg]
      exact ⟨_, rfl⟩
    | [] => rw [hs] at ht; exact absurd ht (by simp)
    | a :: b :: l => rw [hs] at ht; exact absurd ht (by simp)
  | ptr c e ih =>
    simp only [isScalarChain] at ht
    obtain ⟨s, hs⟩ := ih ht
    exact ⟨_, step c e s hs⟩
  | otherTy => simp [isScalarChain] at ht

/-- Witness for C7 at a concrete two-level pointer chain. -/
theorem c7_pointer_chain_witness :
    ty_to_zig (Ty.ptr false (Ty.ptr true (scalarTy "c_char"))) =
      Except.ok ("?*" ++ "" ++ "?*const i8") :=
  c7_pointer_chain.2 false (Ty.ptr true (scalarTy "c_char")) "?*const i8" (by rfl)

/-- C1 counterexample: a type alias whose aliased type is untranslatable
(`Ty.otherTy`) does NOT abort the run: the whole one-item run ends in
`TR.ok` with the soft-failure placeholder comment, because the
`Error::Nyi` raised by `ty_to_zig` IS one of the driver's soft-failure
cases. -/
theorem c1_counterexample :
    translate_items [Item.type ⟨Visibility.public, "FOO", Ty.otherTy⟩] initCx =
      (TR.ok ["// Item not yet implemented"], initCx) := by
  rfl

/-- C1 amended: for every type-alias item whose aliased type cannot be
translated, the translator fails with the not-yet-implemented error, which
the driver's soft-failure case catches: the run emits exactly one
placeholder comment line for the item and continues with the remaining
items unchanged (soft failure, no abort). -/
theorem c1_type_alias_soft (t : ItemType) (rest : List Item) (cx : Cx)
    (h : ty_to_zig t.ty = Except.error Error.nyi) :
    translate_items (Item.type t :: rest) cx =
      (TR.append ["// Item not yet implemented"] (translate_items rest cx).1,
        (translate_items rest cx).2) := by
  simp only [translate_items, wrap_item_to_zig, item_to_zig, type_to_zig, h,
    List.nil_append]

/-- Witness for C1 at a concrete untranslatable alias followed by a
constant item. -/
theorem c1_type_alias_soft_witness :
    translate_items
        [Item.type ⟨Visibility.inherited, "LPARAM", Ty.otherTy⟩,
         Item.const ⟨Visibility.public, "N", Expr.lit (Lit.int "7")⟩] initCx =
      (TR.append ["// Item not yet implemented"]
          (translate_items [Item.const ⟨Visibility.public, "N", Expr.lit (Lit.int "7")⟩] initCx).1,
        (translate_items [Item.const ⟨Visibility.public, "N", Expr.lit (Lit.int "7")⟩] initCx).2) :=
  c1_type_alias_soft ⟨Visibility.inherited, "LPARAM", Ty.otherTy⟩ _ initCx rfl

/-- C2 counterexample: a STRUCT macro call whose token stream does not
parse as a struct item (the external `syn::parse2` returns an error,
modelled as `parsed = none`) makes the translator panic — the `unwrap()`
on the parse result — instead of returning an error value of the core's
`Error` type. -/
theorem c2_counterexample :
    macro_to_zig ⟨⟨[⟨"STRUCT", PathArguments.noArguments⟩]⟩, [], none⟩ = TR.panicked [] ∧
      TR.isErr (macro_to_zig ⟨⟨[⟨"STRUCT", PathArguments.noArguments⟩]⟩, [], none⟩) = false := by
  exact ⟨rfl, rfl⟩

/-- C2 amended: for every STRUCT macro call whose argument token stream
does not parse as a field-bearing record definition, the translator
panics on the unchecked unwrap of the parse result — crashing the process
with nothing emitted — rather than returning an error value. -/
theorem c2_struct_parse_panics (m : ItemMac)
    (hname : path_as_single_ident m.path = some "STRUCT")
    (hparse : m.parsed = none) :
    macro_to_zig m = TR.panicked [] := by
  simp only [macro_to_zig, hname, struct_macro_to_zig, hparse]

/-- Witness for C2 at a concrete unparsable STRUCT call. -/
theorem c2_struct_parse_panics_witness :
    macro_to_zig ⟨⟨[⟨"STRUCT", PathArguments.noArguments⟩]⟩, [TokenTree.otherTok], none⟩ =
      TR.panicked [] :=
  c2_struct_parse_panics ⟨⟨[⟨"STRUCT", PathArguments.noArguments⟩]⟩, [TokenTree.otherTok], none⟩
    rfl rfl

/-- C4 counterexample: a DECLARE_HANDLE call whose first token is not a
plain identifier (here a non-identifier token followed by a comma-position
token and an identifier) is NOT reported and skipped: the item translates
with `TR.ok` and zero emitted lines — it succeeds silently, emitting no
placeholder comment at all. -/
theorem c4_counterexample :
    wrap_item_to_zig
        (Item.mac ⟨⟨[⟨"DECLARE_HANDLE", PathArguments.noArguments⟩]⟩,
          [TokenTree.otherTok, TokenTree.otherTok, TokenTree.ident "X"], none⟩) initCx =
      (TR.ok [], initCx) := by
  rfl

/-- C4 amended: for a DECLARE_HANDLE call with at least three tokens in
which the first token or the token after the comma position is not a plain
identifier, the translator succeeds silently, emitting nothing; only when
the stream has fewer than three tokens does the item fail non-fatally
with the not-yet-implemented soft failure (one placeholder comment, run
continues). -/
theorem c4_declare_handle_silent (m : ItemMac) (cx : Cx)
    (hname : path_as_single_ident m.path = some "DECLARE_HANDLE") :
    (∀ (t1 t2 t3 : TokenTree) (rest : List TokenTree),
      m.tokens = t1 :: t2 :: t3 :: rest →
      (isIdentTok t1 && isIdentTok t3) = false →
      wrap_item_to_zig (Item.mac m) cx = (TR.ok [], cx)) ∧
    (m.tokens.length < 3 →
      wrap_item_to_zig (Item.mac m) cx = (TR.ok ["// Item not yet implemented"], cx)) := by
  constructor
  · intro t1 t2 t3 rest htoks hbad
    simp only [wrap_item_to_zig, item_to_zig, macro_to_zig, hname,
      declare_handle_to_zig, htoks]
    match t1, t3, hbad with
    | TokenTree.ident n, TokenTree.otherTok, _ => rfl
    | TokenTree.otherTok, TokenTree.ident n, _ => rfl
    | TokenTree.otherTok, TokenTree.otherTok, _ => rfl
    | TokenTree.ident n, TokenTree.ident n2, hbad => simp [isIdentTok] at hbad
  · intro hlen
    simp only [wrap_item_to_zig, item_to_zig, macro_to_zig, hname, declare_handle_to_zig]
    match hm : m.tokens, hlen with
    | [], _ => simp [hm, declare_handle_to_zig]
    | [t1], _ => simp [hm, declare_handle_to_zig]
    | [t1, t2], _ => simp [hm, declare_handle_to_zig]
    | t1 :: t2 :: t3 :: rest, hlen => simp [hm] at hlen; omega

/-- Witness for C4: the silent-success branch at a concrete bad first
token, and the soft-failure branch at a concrete two-token stream. -/
theorem c4_declare_handle_silent_witness :
    wrap_item_to_zig
        (Item.mac ⟨⟨[⟨"DECLARE_HANDLE", PathArguments.noArguments⟩]⟩,
          [TokenTree.ident "HWND", TokenTree.otherTok, TokenTree.otherTok], none⟩) initCx =
      (TR.ok [], initCx) ∧
    wrap_item_to_zig
        (Item.mac ⟨⟨[⟨"DECLARE_HANDLE", PathArguments.noArguments⟩]⟩,
          [TokenTree.ident "HWND", TokenTree.otherTok], none⟩) initCx =
      (TR.ok ["// Item not yet implemented"], initCx) :=
  ⟨(c4_declare_handle_silent
      ⟨⟨[⟨"DECLARE_HANDLE", PathArguments.noArguments⟩]⟩,
        [TokenTree.ident "HWND", TokenTree.otherTok, TokenTree.otherTok], none⟩
      initCx rfl).1 _ _ _ [] rfl rfl,
   (c4_declare_handle_silent
      ⟨⟨[⟨"DECLARE_HANDLE", PathArguments.noArguments⟩]⟩,
        [TokenTree.ident "HWND", TokenTree.otherTok], none⟩
      initCx rfl).2 (by decide)⟩

/-- C9: an unrecognized single-identifier macro name and a bare (non
foreign) function item are soft failures: each yields exactly one
placeholder comment line naming the skipped construct, leaves the context
unchanged, and the driver continues with the remaining items. -/
theorem c9_unhandled_soft :
    (∀ (m : ItemMac) (id : String) (cx : Cx),
      path_as_single_ident m.path = some id →
      id ≠ "STRUCT" → id ≠ "DECLARE_HANDLE" →
      wrap_item_to_zig (Item.mac m) cx = (TR.ok ["// Unhandled item: " ++ id], cx)) ∧
    (∀ (f : ItemFn) (cx : Cx),
      wrap_item_to_zig (Item.fn f) cx =
        (TR.ok ["// Unhandled item: " ++ f.sig.ident], cx)) ∧
    (∀ (item : Item) (cx cx2 : Cx) (l : List String) (rest : List Item),
      wrap_item_to_zig item cx = (TR.ok l, cx2) →
      translate_items (item :: rest) cx =
        (TR.append l (translate_items rest cx2).1, (translate_items rest cx2).2)) := by
  refine ⟨?_, ?_, ?_⟩
  · intro m id cx hname h1 h2
    simp [wrap_item_to_zig, item_to_zig, macro_to_zig, hname, h1, h2]
  · intro f cx
    rfl
  · intro item cx cx2 l rest h
    simp only [translate_items, h]

/-- Witness for C9 at a concrete unrecognized macro call followed by a
constant item. -/
theorem c9_unhandled_soft_witness :
    wrap_item_to_zig
        (Item.mac ⟨⟨[⟨"ENUM", PathArguments.noArguments⟩]⟩, [], none⟩) initCx =
      (TR.ok ["// Unhandled item: " ++ "ENUM"], initCx) ∧
    translate_items
        [Item.mac ⟨⟨[⟨"ENUM", PathArguments.noArguments⟩]⟩, [], none⟩,
         Item.const ⟨Visibility.public, "K", Expr.lit (Lit.int "3")⟩] initCx =
      (TR.append ["// Unhandled item: " ++ "ENUM"]
          (translate_items [Item.const ⟨Visibility.public, "K", Expr.lit (Lit.int "3")⟩] initCx).1,
        (translate_items [Item.const ⟨Visibility.public, "K", Expr.lit (Lit.int "3")⟩] initCx).2) := by
  have h1 := c9_unhandled_soft.1 ⟨⟨[⟨"ENUM", PathArguments.noArguments⟩]⟩, [], none⟩ "ENUM"
    initCx rfl (by decide) (by decide)
  exact ⟨h1, c9_unhandled_soft.2.2 _ initCx initCx _ _ h1⟩

/-- C6 counterexample: a foreign function with one receiver (`self`)
argument emits NO formal-parameter line for it — the output is just the
header and the trailer — contradicting "exactly one formal-parameter line
per argument of the function". -/
theorem c6_counterexample :
    foreign_mod_to_zig
        ⟨[ForeignItem.fn ⟨Visibility.public, ⟨"f", [FnArg.receiver], ReturnType.default⟩⟩]⟩
        initCx =
      TR.ok ["pub extern \x22user32\x22 fn f (", ") callconv(.Stdcall) ;"] := by
  rfl

/-- C6 amended: for every foreign block and every function declared inside
it, the translator emits the header carrying the context's link name and
the function's name, then exactly one formal-parameter line per TYPED
argument — receiver (`self`) arguments yield no line — each line carrying
the parameter's name (the identifier, the anonymous placeholder `_` for a
wildcard, or an empty name for any other pattern) and its translated
type, then the trailer with the fixed calling-convention tag and the
translated return type, which is empty when the source specifies no
return type. -/
theorem c6_foreign_fn_shape :
    (∀ (t : PatType) (s : String), ty_to_zig t.ty = Except.ok s →
      fn_arg_to_zig (FnArg.typed t) = TR.ok ["    " ++ patName t.pat ++ ": " ++ s ++ ","]) ∧
    (fn_arg_to_zig FnArg.receiver = TR.ok []) ∧
    (∀ (args : List FnArg) (l : List String), foreign_args_to_zig args = TR.ok l →
      l.length = args.countP (fun a => isTypedArg a)) ∧
    (∀ (link : String) (f : ForeignItemFn) (l : List String) (r : String),
      foreign_args_to_zig f.sig.inputs = TR.ok l →
      ret_ty_to_zig f.sig.output = Except.ok r →
      foreign_item_to_zig link (ForeignItem.fn f) =
        TR.ok ((vis_to_zig f.vis ++ "extern \x22" ++ link ++ "\x22 fn " ++ f.sig.ident ++ " (")
          :: l ++ [") callconv(.Stdcall) " ++ r ++ ";"])) ∧
    (ret_ty_to_zig ReturnType.default = Except.ok "") ∧
    (∀ (link : String) (i : ForeignItem) (rest : List ForeignItem)
        (li lr : List String),
      foreign_item_to_zig link i = TR.ok li →
      foreign_items_to_zig link rest = TR.ok lr →
      foreign_items_to_zig link (i :: rest) = TR.ok (li ++ lr)) ∧
    (∀ (fm : ItemForeignMod) (cx : Cx),
      foreign_mod_to_zig fm cx = foreign_items_to_zig cx.link_name fm.items) := by
  refine ⟨?_, rfl, ?_, ?_, rfl, ?_, fun _ _ => rfl⟩
  · intro t s h
    simp only [fn_arg_to_zig, h]
  · intro args
    induction args with
    | nil => intro l h; simp only [foreign_args_to_zig] at h; cases h; rfl
    | cons a rest ih =>
      intro l h
      cases a with
      | receiver =>
        rw [foreign_args_cons_ok _ _ _ fn_arg_receiver_eq] at h
        cases hr : foreign_args_to_zig rest with
        | ok lr =>
          rw [hr] at h
          simp only [TR.append, List.nil_append] at h
          cases h
          exact ih _ hr
        | err e lr => rw [hr] at h; simp [TR.append] at h
        | panicked lr => rw [hr] at h; simp [TR.append] at h
      | typed t =>
        cases ht : ty_to_zig t.ty with
        | ok s =>
          rw [foreign_args_cons_ok _ _ _ (fn_arg_typed_ok t s ht)] at h
          cases hr : foreign_args_to_zig rest with
          | ok lr =>
            rw [hr] at h
            simp only [TR.append, List.singleton_append] at h
            cases h
            simp [List.countP_cons, isTypedArg, ih lr hr]
          | err e lr => rw [hr] at h; simp [TR.append] at h
          | panicked lr => rw [hr] at h; simp [TR.append] at h
        | error e =>
          rw [foreign_args_cons_err _ _ _ _ (fn_arg_typed_err t e ht)] at h
          simp at h
  · intro link f l r hargs hret
    simp only [foreign_item_to_zig, hargs, hret]
  · intro link i rest li lr hi hrest
    simp only [foreign_items_to_zig, hi, hrest, TR.append]

/-- Witness for C6 at a concrete two-argument foreign function (an ident
pattern and a wildcard) with no return type. -/
theorem c6_foreign_fn_shape_witness :
    foreign_item_to_zig "user32" (ForeignItem.fn
        ⟨Visibility.public,
          ⟨"MessageBoxA",
            [FnArg.typed ⟨Pat.ident "hwnd", Ty.ptr false (scalarTy "HWND")⟩,
             FnArg.typed ⟨Pat.wild, scalarTy "u32"⟩],
            ReturnType.default⟩⟩) =
      TR.ok (("pub " ++ "extern \x22" ++ "user32" ++ "\x22 fn " ++ "MessageBoxA" ++ " (")
        :: ["    hwnd: ?*HWND,", "    _: u32,"] ++ [") callconv(.Stdcall) " ++ "" ++ ";"]) :=
  c6_foreign_fn_shape.2.2.2.1 "user32"
    ⟨Visibility.public,
      ⟨"MessageBoxA",
        [FnArg.typed ⟨Pat.ident "hwnd", Ty.ptr false (scalarTy "HWND")⟩,
         FnArg.typed ⟨Pat.wild, scalarTy "u32"⟩],
        ReturnType.default⟩⟩
    ["    hwnd: ?*HWND,", "    _: u32,"] "" rfl rfl

/-- C10: under the precondition that the STRUCT token stream parses as a
struct item whose fields are all named and all of translatable type, the
STRUCT translator never panics and emits exactly one `name: type` line
per field between the record header and footer; a failed parse or an
unnamed field (after well-behaved earlier fields) reaches the unchecked
unwraps and panics. -/
theorem c10_struct_totality :
    (∀ (s : ItemStruct),
      (∀ f ∈ s.fields, (∃ n, f.ident = some n) ∧ ∃ t, ty_to_zig f.ty = Except.ok t) →
      ∃ L, struct_fields_to_zig s.fields = TR.ok L ∧
        L.length = s.fields.length ∧
        List.Forall₂
          (fun (f : StructField) (l : String) => ∃ n t, f.ident = some n ∧
            ty_to_zig f.ty = Except.ok t ∧ l = "    " ++ n ++ ": " ++ t ++ ",")
          s.fields L ∧
        struct_macro_to_zig (some s) = TR.ok (structHeader s :: L ++ ["\x7d;"])) ∧
    (struct_macro_to_zig none = TR.panicked []) ∧
    (∀ (s : ItemStruct) (pre : List StructField) (f : StructField)
        (post : List StructField),
      s.fields = pre ++ f :: post → f.ident = none →
      (∀ g ∈ pre, (∃ n, g.ident = some n) ∧ ∃ t, ty_to_zig g.ty = Except.ok t) →
      ∃ l, struct_macro_to_zig (some s) = TR.panicked l) := by
  have fieldsOk : ∀ (fs : List StructField),
      (∀ f ∈ fs, (∃ n, f.ident = some n) ∧ ∃ t, ty_to_zig f.ty = Except.ok t) →
      ∃ L, struct_fields_to_zig fs = TR.ok L ∧
        L.length = fs.length ∧
        List.Forall₂
          (fun (f : StructField) (l : String) => ∃ n t, f.ident = some n ∧
            ty_to_zig f.ty = Except.ok t ∧ l = "    " ++ n ++ ": " ++ t ++ ",")
          fs L := by
    intro fs
    induction fs with
    | nil => intro _; exact ⟨[], rfl, rfl, List.Forall₂.nil⟩
    | cons f rest ih =>
      intro h
      obtain ⟨⟨n, hn⟩, ⟨t, htt⟩⟩ := h f (List.mem_cons_self f rest)
      obtain ⟨L, hL, hlen, hall⟩ := ih (fun g hg => h g (List.mem_cons_of_mem f hg))
      refine ⟨("    " ++ n ++ ": " ++ t ++ ",") :: L, ?_, ?_, ?_⟩
      · simp only [struct_fields_to_zig, hn, htt, hL, TR.append, List.singleton_append]
      · simp [hlen]
      · exact List.Forall₂.cons ⟨n, t, hn, htt, rfl⟩ hall
  have fieldsPanic : ∀ (pre : List StructField) (f : StructField)
      (post : List StructField),
      f.ident = none →
      (∀ g ∈ pre, (∃ n, g.ident = some n) ∧ ∃ t, ty_to_zig g.ty = Except.ok t) →
      ∃ l, struct_fields_to_zig (pre ++ f :: post) = TR.panicked l := by
    intro pre
    induction pre with
    | nil =>
      intro f post hf _
      exact ⟨[], by simp only [List.nil_append, struct_fields_to_zig, hf]⟩
    | cons g rest ih =>
      intro f post hf h
      obtain ⟨⟨n, hn⟩, ⟨t, htt⟩⟩ := h g (List.mem_cons_self g rest)
      obtain ⟨l, hl⟩ := ih f post hf (fun g2 hg2 => h g2 (List.mem_cons_of_mem g hg2))
      refine ⟨("    " ++ n ++ ": " ++ t ++ ",") :: l, ?_⟩
      simp only [List.cons_append, struct_fields_to_zig, hn, htt, List.append_eq, hl,
        TR.append, List.singleton_append, List.nil_append]
  refine ⟨?_, rfl, ?_⟩
  · intro s h
    obtain ⟨L, hL, hlen, hall⟩ := fieldsOk s.fields h
    exact ⟨L, hL, hlen, hall, by simp only [struct_macro_to_zig, hL]⟩
  · intro s pre f post hs hf h
    obtain ⟨l, hl⟩ := fieldsPanic pre f post hf h
    rw [← hs] at hl
    exact ⟨structHeader s :: l, by simp only [struct_macro_to_zig, hl]⟩

/-- Witness for C10: the total branch at a concrete two-field struct, and
the panic branch at a concrete struct with an unnamed second field. -/
theorem c10_struct_totality_witness :
    (∃ L, struct_fields_to_zig
        ([⟨some "x", scalarTy "c_uchar"⟩, ⟨some "y", Ty.ptr true (scalarTy "c_char")⟩] :
          List StructField) = TR.ok L ∧
      L.length = ([⟨some "x", scalarTy "c_uchar"⟩,
        ⟨some "y", Ty.ptr true (scalarTy "c_char")⟩] : List StructField).length ∧
      List.Forall₂
        (fun (f : StructField) (l : String) => ∃ n t, f.ident = some n ∧
          ty_to_zig f.ty = Except.ok t ∧ l = "    " ++ n ++ ": " ++ t ++ ",")
        [⟨some "x", scalarTy "c_uchar"⟩, ⟨some "y", Ty.ptr true (scalarTy "c_char")⟩] L ∧
      struct_macro_to_zig (some ⟨"POINT",
        [⟨some "x", scalarTy "c_uchar"⟩, ⟨some "y", Ty.ptr true (scalarTy "c_char")⟩]⟩) =
        TR.ok (structHeader ⟨"POINT",
          [⟨some "x", scalarTy "c_uchar"⟩, ⟨some "y", Ty.ptr true (scalarTy "c_char")⟩]⟩
          :: L ++ ["\x7d;"])) ∧
    (∃ l, struct_macro_to_zig (some ⟨"BAD", [⟨some "x", scalarTy "u8"⟩,
        ⟨none, scalarTy "u8"⟩]⟩) = TR.panicked l) :=
  ⟨c10_struct_totality.1
      ⟨"POINT", [⟨some "x", scalarTy "c_uchar"⟩, ⟨some "y", Ty.ptr true (scalarTy "c_char")⟩]⟩
      (by
        intro f hf
        simp only [List.mem_cons, List.not_mem_nil, or_false] at hf
        rcases hf with rfl | rfl
        · exact ⟨⟨"x", rfl⟩, ⟨"u8", rfl⟩⟩
        · exact ⟨⟨"y", rfl⟩, ⟨"?*const i8", rfl⟩⟩),
   c10_struct_totality.2.2
      ⟨"BAD", [⟨some "x", scalarTy "u8"⟩, ⟨none, scalarTy "u8"⟩]⟩
      [⟨some "x", scalarTy "u8"⟩] ⟨none, scalarTy "u8"⟩ [] rfl rfl
      (by
        intro g hg
        simp only [List.mem_cons, List.not_mem_nil, or_false] at hg
        rcases hg with rfl
        exact ⟨⟨"x", rfl⟩, ⟨"u8", rfl⟩⟩)⟩

/-! ### Expansion lemmas for C3 -/

mutual

theorem expand_rec_eq_pure : ∀ (u : UseTree) (pre : List String),
    supportedTree u = true → expand_rec u pre = Except.ok (expandPure pre u)
  | UseTree.path i t, pre, h => by
    simp only [supportedTree] at h
    simp only [expand_rec, expandPure]
    exact expand_rec_eq_pure t (pre ++ [i]) h
  | UseTree.name i, pre, _ => rfl
  | UseTree.group ts, pre, h => by
    simp only [supportedTree] at h
    simp only [expand_rec, expandPure]
    exact expand_group_eq_pure ts pre h
  | UseTree.otherUse, pre, h => by simp [supportedTree] at h

theorem expand_group_eq_pure : ∀ (ts : List UseTree) (pre : List String),
    supportedTreeList ts = true → expand_group ts pre = Except.ok (expandPureList pre ts)
  | [], pre, _ => rfl
  | t :: ts, pre, h => by
    simp only [supportedTreeList, Bool.and_eq_true] at h
    simp only [expand_group, expandPureList]
    rw [expand_rec_eq_pure t pre h.1, expand_group_eq_pure ts pre h.2]

end

mutual

theorem expandPure_length : ∀ (u : UseTree) (pre : List String),
    (expandPure pre u).length = leafCount u
  | UseTree.path i t, pre => by
    simp only [expandPure, leafCount]
    exact expandPure_length t (pre ++ [i])
  | UseTree.name i, pre => rfl
  | UseTree.group ts, pre => by
    simp only [expandPure, leafCount]
    exact expandPureList_length ts pre
  | UseTree.otherUse, pre => rfl

theorem expandPureList_length : ∀ (ts : List UseTree) (pre : List String),
    (expandPureList pre ts).length = leafCountList ts
  | [], pre => rfl
  | t :: ts, pre => by
    simp only [expandPureList, leafCountList, List.length_append]
    rw [expandPure_length t pre, expandPureList_length ts pre]

end

mutual

theorem expandPure_depths : ∀ (u : UseTree) (pre : List String),
    (expandPure pre u).map List.length = leafDepths pre.length u
  | UseTree.path i t, pre => by
    simp only [expandPure, leafDepths]
    rw [expandPure_depths t (pre ++ [i])]
    simp
  | UseTree.name i, pre => by simp [expandPure, leafDepths]
  | UseTree.group ts, pre => by
    simp only [expandPure, leafDepths]
    exact expandPureList_depths ts pre
  | UseTree.otherUse, pre => rfl

theorem expandPureList_depths : ∀ (ts : List UseTree) (pre : List String),
    (expandPureList pre ts).map List.length = leafDepthsList pre.length ts
  | [], pre => rfl
  | t :: ts, pre => by
    simp only [expandPureList, leafDepthsList, List.map_append]
    rw [expandPure_depths t pre, expandPureList_depths ts pre]

end

theorem expand_rec_chain : ∀ (u : UseTree) (pre : List String), isChain u = true →
    expand_rec u pre = Except.ok [pre ++ chainSpell u]
  | UseTree.path i t, pre, h => by
    simp only [isChain] at h
    simp only [expand_rec, chainSpell]
    rw [expand_rec_chain t (pre ++ [i]) h]
    simp
  | UseTree.name i, pre, _ => rfl
  | UseTree.group ts, pre, h => by simp [isChain] at h
  | UseTree.otherUse, pre, h => by simp [isChain] at h

/-- C3 counterexample: expansion of a group holding the same leaf name
twice yields two EQUAL paths, so the "N distinct paths" part of the claim
fails: here N = 2 leaves but the two produced paths coincide. -/
theorem c3_counterexample :
    expand_use_tree (UseTree.group [UseTree.name "a", UseTree.name "a"]) =
      Except.ok [["a"], ["a"]] ∧
    ¬ (([["a"], ["a"]] : List UsePath).Nodup) := by
  constructor
  · rfl
  · simp

/-- C3 amended: for every import tree built only from path-segment chains,
leaf names and brace groups, expansion succeeds and yields exactly N
paths — one per leaf name, in order, though not necessarily distinct when
the tree repeats a name; each yielded path's length equals the depth of
its leaf in the source tree, and a tree with no groups yields exactly the
one path spelled by its chain. -/
theorem c3_expansion (u : UseTree) (h : supportedTree u = true) :
    expand_use_tree u = Except.ok (expandPure [] u) ∧
    (expandPure [] u).length = leafCount u ∧
    (expandPure [] u).map List.length = leafDepths 0 u ∧
    (isChain u = true → expand_use_tree u = Except.ok [chainSpell u]) := by
  refine ⟨expand_rec_eq_pure u [] h, expandPure_length u [], expandPure_depths u [], ?_⟩
  intro hc
  have := expand_rec_chain u [] hc
  simpa [expand_use_tree] using this

/-- Witness for C3 at the concrete tree `a::{b, c::d}`. -/
theorem c3_expansion_witness :
    expand_use_tree
        (UseTree.path "a" (UseTree.group [UseTree.name "b",
          UseTree.path "c" (UseTree.name "d")])) =
      Except.ok (expandPure []
        (UseTree.path "a" (UseTree.group [UseTree.name "b",
          UseTree.path "c" (UseTree.name "d")]))) ∧
    (expandPure [] (UseTree.path "a" (UseTree.group [UseTree.name "b",
        UseTree.path "c" (UseTree.name "d")]))).length =
      leafCount (UseTree.path "a" (UseTree.group [UseTree.name "b",
        UseTree.path "c" (UseTree.name "d")])) ∧
    (expandPure [] (UseTree.path "a" (UseTree.group [UseTree.name "b",
        UseTree.path "c" (UseTree.name "d")]))).map List.length =
      leafDepths 0 (UseTree.path "a" (UseTree.group [UseTree.name "b",
        UseTree.path "c" (UseTree.name "d")])) ∧
    (isChain (UseTree.path "a" (UseTree.group [UseTree.name "b",
        UseTree.path "c" (UseTree.name "d")])) = true →
      expand_use_tree (UseTree.path "a" (UseTree.group [UseTree.name "b",
        UseTree.path "c" (UseTree.name "d")])) =
        Except.ok [chainSpell (UseTree.path "a" (UseTree.group [UseTree.name "b",
          UseTree.path "c" (UseTree.name "d")]))]) :=
  c3_expansion
    (UseTree.path "a" (UseTree.group [UseTree.name "b", UseTree.path "c" (UseTree.name "d")]))
    rfl

/-! ### Machinery for C5: module-import deduplication over a whole run

`importLine M` always contains the character `@`, while every other kind
of emitted line either starts with a character other than `c` or — for
lines built from program identifiers — is `@`-free whenever the program's
identifier strings are.  `cleanItem` captures that well-formedness (real
programs satisfy it: Rust identifiers cannot contain `@`). -/

/-- The string contains no `@` character. -/
def atFree (s : String) : Bool := s.data.all (fun c => !(c == '@'))

/-- All identifiers in a type are `@`-free. -/
def tyAtFree : Ty → Bool
  | Ty.path p => p.segments.all (fun seg => atFree seg.ident)
  | Ty.ptr _ e => tyAtFree e
  | Ty.otherTy => true

mutual

/-- All identifiers in a use tree are `@`-free. -/
def treeAtFree : UseTree → Bool
  | UseTree.path i t => atFree i && treeAtFree t
  | UseTree.name i => atFree i
  | UseTree.group ts => treeListAtFree ts
  | UseTree.otherUse => true

def treeListAtFree : List UseTree → Bool
  | [] => true
  | t :: ts => treeAtFree t && treeListAtFree ts

end

/-- The literal text of an expression is `@`-free. -/
def exprAtFree : Expr → Bool
  | Expr.lit (Lit.int i) => atFree i
  | _ => true

/-- Debug dumps of non-function foreign items are `@`-free. -/
def foreignItemAtFree : ForeignItem → Bool
  | ForeignItem.fn _ => true
  | ForeignItem.otherForeign d => atFree d

/-- A well-formed item: all strings embedded in it that can reach the
start of an emitted line are `@`-free (identifiers of a real source
program always are). -/
def cleanItem : Item → Bool
  | Item.use u => treeAtFree u.tree
  | Item.type t => atFree t.ident && tyAtFree t.ty
  | Item.const c => atFree c.ident && exprAtFree c.expr
  | Item.foreignMod fm => fm.items.all foreignItemAtFree
  | Item.mac _ => true
  | Item.fn _ => true
  | Item.otherItem d => atFree d

theorem atFree_append (a b : String) : atFree (a ++ b) = (atFree a && atFree b) := by
  simp [atFree, String.data_append, List.all_append]

theorem atFree_importLine (m : String) : atFree (importLine m) = false := by
  simp [atFree, importLine, String.data_append, List.all_append]

theorem ne_importLine_of_atFree {s m : String} (h : atFree s = true) :
    s ≠ importLine m := by
  intro he
  rw [he, atFree_importLine] at h
  exact Bool.false_ne_true h

theorem ne_importLine_of_headD {s m : String} (h : s.data.headD ' ' ≠ 'c') :
    s ≠ importLine m := by
  intro he
  apply h
  rw [he]
  rfl

theorem importLine_inj {a b : String} (h : importLine a = importLine b) : a = b := by
  have hd := congrArg String.data h
  simp only [importLine, String.data_append, List.append_assoc] at hd
  have h1 := List.append_cancel_left hd
  have hlen : a.data.length = b.data.length := by
    have := congrArg List.length h1
    simp only [List.length_append] at this
    omega
  have h2 := (List.append_inj h1 hlen).1
  cases a; cases b; simp_all

theorem ne_importLine_of_ne {a b : String} (h : a ≠ b) : importLine a ≠ importLine b :=
  fun he => h (importLine_inj he)

theorem TR.lines_append (pre : List String) (r : TR) :
    (TR.append pre r).lines = pre ++ r.lines := by
  cases r <;> rfl

theorem contains_insertSet (s : List String) (x y : String) :
    (insertSet s x).contains y = ((y == x) || s.contains y) := by
  unfold insertSet
  by_cases hx : s.contains x = true
  · rw [if_pos hx]
    by_cases hy : y = x
    · subst hy
      simp only [beq_self_eq_true, Bool.true_or]
      exact hx
    · have : (y == x) = false := by simpa using hy
      simp [this]
  · rw [if_neg hx]
    rfl

/-- The bookkeeping invariant for the module-import line of module `M`
across a translation step from context `cx` to context `cx'` emitting
`lines`: the line is emitted at most once (never if `M` is already
recorded), recording is monotone, and an emission records `M`. -/
def ImportInv (M : String) (cx cx' : Cx) (lines : List String) : Prop :=
  (List.count (importLine M) lines ≤ if cx.toplevel_imports.contains M then 0 else 1) ∧
  (cx.toplevel_imports.contains M = true → cx'.toplevel_imports.contains M = true) ∧
  (1 ≤ List.count (importLine M) lines → cx'.toplevel_imports.contains M = true)

theorem ImportInv.of_zero {M : String} {cx : Cx} {lines : List String}
    (h : List.count (importLine M) lines = 0) : ImportInv M cx cx lines := by
  refine ⟨by rw [h]; split <;> omega, fun h2 => h2, fun h1 => absurd h1 (by omega)⟩

theorem ImportInv.comp {M : String} {cx cx1 cx2 : Cx} {l1 l2 : List String}
    (h1 : ImportInv M cx cx1 l1) (h2 : ImportInv M cx1 cx2 l2) :
    ImportInv M cx cx2 (l1 ++ l2) := by
  obtain ⟨a1, b1, d1⟩ := h1
  obtain ⟨a2, b2, d2⟩ := h2
  refine ⟨?_, fun h => b2 (b1 h), ?_⟩
  · rw [List.count_append]
    by_cases hc : cx.toplevel_imports.contains M = true
    · rw [if_pos hc] at a1 ⊢
      rw [if_pos (b1 hc)] at a2
      omega
    · rw [if_neg hc] at a1 ⊢
      by_cases hp : 1 ≤ List.count (importLine M) l1
      · rw [if_pos (d1 hp)] at a2
        omega
      · have hb : List.count (importLine M) l2 ≤ 1 := by
          refine le_trans a2 ?_
          split <;> omega
        omega
  · rw [List.count_append]
    intro h
    by_cases hp : 1 ≤ List.count (importLine M) l1
    · exact b2 (d1 hp)
    · exact d2 (by omega)

theorem ImportInv.cons_ne {M : String} {cx cx' : Cx} {lines : List String} {x : String}
    (hx : x ≠ importLine M) (h : ImportInv M cx cx' lines) :
    ImportInv M cx cx' (x :: lines) := by
  obtain ⟨a, b, d⟩ := h
  have hcnt : List.count (importLine M) (x :: lines) = List.count (importLine M) lines := by
    rw [List.count_cons_of_ne (fun he => hx he.symm)]
  exact ⟨by rw [hcnt]; exact a, b, fun h1 => d (by omega)⟩

theorem ImportInv.congr_start {M : String} {cx cx0 cx' : Cx} {lines : List String}
    (hc : cx.toplevel_imports.contains M = cx0.toplevel_imports.contains M)
    (h : ImportInv M cx0 cx' lines) : ImportInv M cx cx' lines := by
  obtain ⟨a, b, d⟩ := h
  exact ⟨by rw [hc]; exact a, fun h2 => b (by rw [← hc]; exact h2), d⟩

/-- Every line of `lines` differs from the module-import line of `M`. -/
def safeLines (M : String) (lines : List String) : Prop :=
  ∀ s ∈ lines, s ≠ importLine M

theorem count_zero_of_safe {M : String} {lines : List String} (h : safeLines M lines) :
    List.count (importLine M) lines = 0 :=
  List.count_eq_zero.mpr (fun hm => h _ hm rfl)

theorem safeLines_nil {M : String} : safeLines M [] := fun s hs => absurd hs (List.not_mem_nil s)

theorem safeLines_append {M : String} {l1 l2 : List String}
    (h1 : safeLines M l1) (h2 : safeLines M l2) : safeLines M (l1 ++ l2) := by
  intro s hs
  rcases List.mem_append.mp hs with h | h
  · exact h1 s h
  · exact h2 s h

theorem safeLines_cons {M : String} {l : List String} {x : String}
    (hx : x ≠ importLine M) (h : safeLines M l) : safeLines M (x :: l) := by
  intro s hs
  rcases List.mem_cons.mp hs with rfl | hs2
  · exact hx
  · exact h s hs2

theorem safeLines_singleton {M : String} {x : String} (hx : x ≠ importLine M) :
    safeLines M [x] := safeLines_cons hx safeLines_nil

theorem joinDot_atFree : ∀ (p : List String), (∀ s ∈ p, atFree s = true) →
    atFree (joinDot p) = true
  | [], _ => by decide
  | [s], h => h s (List.mem_singleton.mpr rfl)
  | s :: s2 :: rest, h => by
    have h1 : atFree s = true := h s (List.mem_cons_self s _)
    have h2 := joinDot_atFree (s2 :: rest) (fun x hx => h x (List.mem_cons_of_mem s hx))
    simp only [joinDot, atFree_append, h1, h2, Bool.and_true, Bool.true_and]
    decide

theorem getLastD_atFree : ∀ (p : List String), (∀ s ∈ p, atFree s = true) →
    atFree (p.getLastD "") = true
  | [], _ => by decide
  | [s], h => h s (List.mem_singleton.mpr rfl)
  | s :: s2 :: rest, h => by
    have := getLastD_atFree (s2 :: rest) (fun x hx => h x (List.mem_cons_of_mem s hx))
    simpa [List.getLastD] using this

theorem vis_to_zig_atFree (v : Visibility) : atFree (vis_to_zig v) = true := by
  cases v <;> decide

theorem aliasLine_atFree {vis : String} {p : List String}
    (hv : atFree vis = true) (hp : ∀ s ∈ p, atFree s = true) :
    atFree (aliasLine vis p) = true := by
  simp only [aliasLine, atFree_append, hv, getLastD_atFree p hp, joinDot_atFree p hp,
    Bool.true_and, Bool.and_true]
  decide

mutual

theorem expand_rec_atFree : ∀ (u : UseTree) (pre : List String)
    (paths : List UsePath), treeAtFree u = true → (∀ s ∈ pre, atFree s = true) →
    expand_rec u pre = Except.ok paths → ∀ p ∈ paths, ∀ s ∈ p, atFree s = true
  | UseTree.path i t, pre, paths, hu, hpre, he => by
    simp only [treeAtFree, Bool.and_eq_true] at hu
    simp only [expand_rec] at he
    refine expand_rec_atFree t (pre ++ [i]) paths hu.2 ?_ he
    intro s hs
    rcases List.mem_append.mp hs with h | h
    · exact hpre s h
    · rw [List.mem_singleton.mp h]
      exact hu.1
  | UseTree.name i, pre, paths, hu, hpre, he => by
    simp only [treeAtFree] at hu
    simp only [expand_rec] at he
    cases he
    intro p hp s hs
    rw [List.mem_singleton.mp hp] at hs
    rcases List.mem_append.mp hs with h | h
    · exact hpre s h
    · rw [List.mem_singleton.mp h]
      exact hu
  | UseTree.group ts, pre, paths, hu, hpre, he => by
    simp only [treeAtFree] at hu
    simp only [expand_rec] at he
    exact expand_group_atFree ts pre paths hu hpre he
  | UseTree.otherUse, pre, paths, hu, hpre, he => by
    simp only [expand_rec] at he
    exact Except.noConfusion he

theorem expand_group_atFree : ∀ (ts : List UseTree) (pre : List String)
    (paths : List UsePath), treeListAtFree ts = true → (∀ s ∈ pre, atFree s = true) →
    expand_group ts pre = Except.ok paths → ∀ p ∈ paths, ∀ s ∈ p, atFree s = true
  | [], pre, paths, _, _, he => by
    simp only [expand_group] at he
    cases he
    intro p hp
    exact absurd hp (List.not_mem_nil p)
  | t :: ts, pre, paths, hu, hpre, he => by
    simp only [treeListAtFree, Bool.and_eq_true] at hu
    simp only [expand_group] at he
    cases ha : expand_rec t pre with
    | error e => rw [ha] at he; exact Except.noConfusion he
    | ok a =>
      rw [ha] at he
      cases hb : expand_group ts pre with
      | error e => rw [hb] at he; exact Except.noConfusion he
      | ok b =>
        rw [hb] at he
        cases he
        intro p hp
        rcases List.mem_append.mp hp with h | h
        · exact expand_rec_atFree t pre a hu.1 hpre ha p h
        · exact expand_group_atFree ts pre b hu.2 hpre hb p h

end

theorem use_paths_cons_ctypes (vis : String) (path : UsePath) (rest : List UsePath)
    (cx : Cx) (h : path.headD "" = "ctypes") :
    use_paths_to_zig vis (path :: rest) cx = use_paths_to_zig vis rest cx := by
  simp only [use_paths_to_zig, if_pos h]

theorem use_paths_cons_seen (vis : String) (path : UsePath) (rest : List UsePath)
    (cx : Cx) (h : ¬ path.headD "" = "ctypes")
    (hc : cx.toplevel_imports.contains (path.headD "") = true) :
    use_paths_to_zig vis (path :: rest) cx =
      (aliasLine vis path :: (use_paths_to_zig vis rest cx).1,
        (use_paths_to_zig vis rest cx).2) := by
  have hins : insertSet cx.toplevel_imports (path.headD "") = cx.toplevel_imports := by
    unfold insertSet
    rw [if_pos hc]
  simp only [use_paths_to_zig]
  rw [if_neg h, if_pos hc, hins]
  simp only [List.nil_append, List.singleton_append]

theorem use_paths_cons_fresh (vis : String) (path : UsePath) (rest : List UsePath)
    (cx : Cx) (h : ¬ path.headD "" = "ctypes")
    (hc : cx.toplevel_imports.contains (path.headD "") = false) :
    use_paths_to_zig vis (path :: rest) cx =
      ("" :: importLine (path.headD "") :: aliasLine vis path ::
          (use_paths_to_zig vis rest
            ⟨cx.link_name, path.headD "" :: cx.toplevel_imports⟩).1,
        (use_paths_to_zig vis rest
          ⟨cx.link_name, path.headD "" :: cx.toplevel_imports⟩).2) := by
  have hins : insertSet cx.toplevel_imports (path.headD "") =
      path.headD "" :: cx.toplevel_imports := by
    unfold insertSet
    rw [if_neg (by rw [hc]; exact Bool.false_ne_true)]
  simp only [use_paths_to_zig]
  rw [if_neg h, if_neg (show ¬ cx.toplevel_imports.contains (path.headD "") = true by
    rw [hc]; exact Bool.false_ne_true), hins]
  simp only [List.cons_append, List.nil_append, List.singleton_append]

/-- The lines and final context of the use-path loop satisfy the
module-import invariant. -/
theorem use_paths_inv (M : String) : ∀ (paths : List UsePath) (vis : String) (cx : Cx),
    (∀ p ∈ paths, ∀ s ∈ p, atFree s = true) → atFree vis = true →
    ImportInv M cx (use_paths_to_zig vis paths cx).2 (use_paths_to_zig vis paths cx).1
  | [], vis, cx, _, _ => ImportInv.of_zero rfl
  | path :: rest, vis, cx, hp, hv => by
    have hpath : ∀ s ∈ path, atFree s = true := hp path (List.mem_cons_self path rest)
    have hrest : ∀ p ∈ rest, ∀ s ∈ p, atFree s = true :=
      fun p hmem => hp p (List.mem_cons_of_mem path hmem)
    have halias : aliasLine vis path ≠ importLine M :=
      ne_importLine_of_atFree (aliasLine_atFree hv hpath)
    have hblank : ("" : String) ≠ importLine M :=
      ne_importLine_of_headD (by decide)
    by_cases hct : path.headD "" = "ctypes"
    · rw [use_paths_cons_ctypes vis path rest cx hct]
      exact use_paths_inv M rest vis cx hrest hv
    · by_cases hTc : cx.toplevel_imports.contains (path.headD "") = true
      · rw [use_paths_cons_seen vis path rest cx hct hTc]
        exact (use_paths_inv M rest vis cx hrest hv).cons_ne halias
      · have hTcf : cx.toplevel_imports.contains (path.headD "") = false :=
          Bool.eq_false_iff.mpr hTc
        rw [use_paths_cons_fresh vis path rest cx hct hTcf]
        have ih := use_paths_inv M rest vis
          ⟨cx.link_name, path.headD "" :: cx.toplevel_imports⟩ hrest hv
        by_cases hTM : path.headD "" = M
        · have hcx1M : ((⟨cx.link_name, path.headD "" :: cx.toplevel_imports⟩ :
              Cx).toplevel_imports.contains M) = true := by
            simp only [List.contains_cons]
            rw [hTM]
            simp
          obtain ⟨a, b, d⟩ := ih
          rw [hcx1M, if_pos rfl] at a
          have hMcx : cx.toplevel_imports.contains M = false := by
            rw [← hTM]
            exact hTcf
          refine ⟨?_, ?_, ?_⟩
          · rw [hMcx, if_neg (by exact Bool.false_ne_true)]
            rw [List.count_cons_of_ne (fun he => hblank he.symm)]
            rw [show importLine (path.headD "") = importLine M from by rw [hTM]]
            rw [List.count_cons_self,
              List.count_cons_of_ne (fun he => halias he.symm)]
            omega
          · intro hcM
            rw [hcM] at hMcx
            exact Bool.noConfusion hMcx
          · intro _
            exact b hcx1M
        · have hlineTM : importLine (path.headD "") ≠ importLine M :=
            ne_importLine_of_ne hTM
          have hsame : cx.toplevel_imports.contains M =
              ((⟨cx.link_name, path.headD "" :: cx.toplevel_imports⟩ :
                Cx).toplevel_imports.contains M) := by
            simp only [List.contains_cons]
            have hbeq : (M == path.headD "") = false :=
              beq_eq_false_iff_ne.mpr (fun he => hTM he.symm)
            rw [hbeq]
            simp
          exact ((ih.congr_start hsame).cons_ne halias).cons_ne hlineTM |>.cons_ne hblank

theorem ty_to_zig_ptr_ok (c : Bool) (e : Ty) (inner : String)
    (hi : ty_to_zig e = Except.ok inner) :
    ty_to_zig (Ty.ptr c e) =
      Except.ok ("?*" ++ (if c then "const " else "") ++ inner) := by
  show (ty_to_zig e >>= fun x =>
    pure ("?*" ++ (if c then "const " else "") ++ x)) = _
  rw [hi]
  rfl

theorem ty_to_zig_ptr_err (c : Bool) (e : Ty) (err : Error)
    (hi : ty_to_zig e = Except.error err) :
    ty_to_zig (Ty.ptr c e) = Except.error err := by
  show (ty_to_zig e >>= fun x =>
    pure ("?*" ++ (if c then "const " else "") ++ x)) = _
  rw [hi]
  rfl

theorem ty_to_zig_atFree : ∀ (t : Ty) (s : String), tyAtFree t = true →
    ty_to_zig t = Except.ok s → atFree s = true
  | Ty.path p, s, ht, he => by
    simp only [ty_to_zig] at he
    match hs : p.segments, he with
    | [seg], he =>
      simp only [tyAtFree, hs, List.all_cons, List.all_nil, Bool.and_true] at ht
      have he2 : (if seg.arguments = PathArguments.noArguments then
          Except.ok (match seg.ident with
            | "c_uchar" => "u8"
            | "c_char" => "i8"
            | "c_schar" => "i8"
            | "__uint64" => "u64"
            | "__int64" => "i64"
            | other => other)
          else (Except.error Error.nyi : Except Error String)) = Except.ok s := he
      by_cases harg : seg.arguments = PathArguments.noArguments
      · rw [if_pos harg] at he2
        injection he2 with h2
        subst h2
        split
        all_goals first | decide | exact ht
      · rw [if_neg harg] at he2
        exact Except.noConfusion he2
  | Ty.ptr c e, s, ht, he => by
    simp only [tyAtFree] at ht
    cases hi : ty_to_zig e with
    | error err =>
      rw [ty_to_zig_ptr_err c e err hi] at he
      exact Except.noConfusion he
    | ok inner =>
      rw [ty_to_zig_ptr_ok c e inner hi] at he
      injection he with h2
      subst h2
      have hinner := ty_to_zig_atFree e inner ht hi
      rw [atFree_append, atFree_append, hinner]
      cases c <;> decide
  | Ty.otherTy, s, _, he => Except.noConfusion he

theorem ne_importLine_of_head_char {s m : String} (c : Char)
    (h : s.data.headD ' ' = c) (hc : c ≠ 'c') : s ≠ importLine m :=
  ne_importLine_of_headD (by rw [h]; exact hc)

theorem expr_to_zig_atFree (e : Expr) (h : exprAtFree e = true) :
    atFree (expr_to_zig e) = true := by
  cases e with
  | lit l =>
    cases l with
    | int i => exact h
    | otherLit => decide
  | otherExpr => decide

theorem stmtLine_atFree (v : Visibility) (ident rhs : String)
    (h1 : atFree ident = true) (h2 : atFree rhs = true) :
    atFree (vis_to_zig v ++ "const " ++ ident ++ " = " ++ rhs ++ ";") = true := by
  simp only [atFree_append, vis_to_zig_atFree, h1, h2, Bool.true_and, Bool.and_true]
  decide

theorem safe_struct_fields (M : String) : ∀ (fs : List StructField),
    safeLines M (struct_fields_to_zig fs).lines
  | [] => safeLines_nil
  | f :: fs => by
    simp only [struct_fields_to_zig]
    cases f.ident with
    | none => exact safeLines_nil
    | some name =>
      cases ht : ty_to_zig f.ty with
      | error e => exact safeLines_nil
      | ok t =>
        rw [TR.lines_append]
        refine safeLines_append (safeLines_singleton ?_) (safe_struct_fields M fs)
        exact ne_importLine_of_head_char ' ' rfl (by decide)

theorem struct_mac_lines_safe (M : String) (parsed : Option ItemStruct) :
    safeLines M (struct_macro_to_zig parsed).lines := by
  cases parsed with
  | none => exact safeLines_nil
  | some s =>
    simp only [struct_macro_to_zig]
    have hh : structHeader s ≠ importLine M :=
      ne_importLine_of_head_char 'p' rfl (by decide)
    have hf := safe_struct_fields M s.fields
    cases hfs : struct_fields_to_zig s.fields with
    | panicked l =>
      rw [hfs] at hf
      exact safeLines_cons hh hf
    | err e l =>
      rw [hfs] at hf
      exact safeLines_cons hh hf
    | ok l =>
      rw [hfs] at hf
      refine safeLines_cons hh (safeLines_append hf (safeLines_singleton ?_))
      exact ne_importLine_of_head_char (Char.ofNat 125) rfl (by decide)

theorem safe_declare_handle (M : String) (toks : List TokenTree) (l : List String)
    (h : declare_handle_to_zig toks = Except.ok l) : safeLines M l := by
  match toks, h with
  | h1 :: t2 :: o3 :: rest, h =>
    match h1, o3, h with
    | TokenTree.ident hn, TokenTree.ident onm, h =>
      cases h
      refine safeLines_cons (ne_importLine_of_head_char 'p' rfl (by decide))
        (safeLines_singleton (ne_importLine_of_head_char 'p' rfl (by decide)))
    | TokenTree.ident hn, TokenTree.otherTok, h => cases h; exact safeLines_nil
    | TokenTree.otherTok, TokenTree.ident onm, h => cases h; exact safeLines_nil
    | TokenTree.otherTok, TokenTree.otherTok, h => cases h; exact safeLines_nil

theorem macro_to_zig_struct (m : ItemMac)
    (h : path_as_single_ident m.path = some "STRUCT") :
    macro_to_zig m = struct_macro_to_zig m.parsed := by
  simp [macro_to_zig, h]

theorem macro_to_zig_declare (m : ItemMac)
    (h : path_as_single_ident m.path = some "DECLARE_HANDLE") :
    macro_to_zig m =
      match declare_handle_to_zig m.tokens with
      | Except.error e => TR.err e []
      | Except.ok l => TR.ok l := by
  simp [macro_to_zig, h]

theorem macro_to_zig_other (m : ItemMac) (id : String)
    (h : path_as_single_ident m.path = some id)
    (h1 : id ≠ "STRUCT") (h2 : id ≠ "DECLARE_HANDLE") :
    macro_to_zig m = TR.err (Error.unhandled id) [] := by
  simp [macro_to_zig, h, h1, h2]

theorem macro_to_zig_none (m : ItemMac)
    (h : path_as_single_ident m.path = none) :
    macro_to_zig m = TR.err Error.nyi [] := by
  simp [macro_to_zig, h]

theorem mac_lines_safe (M : String) (m : ItemMac) : safeLines M (macro_to_zig m).lines := by
  cases hpi : path_as_single_ident m.path with
  | none =>
    rw [macro_to_zig_none m hpi]
    exact safeLines_nil
  | some id =>
    by_cases h1 : id = "STRUCT"
    · subst h1
      rw [macro_to_zig_struct m hpi]
      exact struct_mac_lines_safe M m.parsed
    · by_cases h2 : id = "DECLARE_HANDLE"
      · subst h2
        rw [macro_to_zig_declare m hpi]
        cases hd : declare_handle_to_zig m.tokens with
        | error e => exact safeLines_nil
        | ok l => exact safe_declare_handle M m.tokens l hd
      · rw [macro_to_zig_other m id hpi h1 h2]
        exact safeLines_nil

theorem safe_fn_arg (M : String) (arg : FnArg) : safeLines M (fn_arg_to_zig arg).lines := by
  cases arg with
  | receiver => exact safeLines_nil
  | typed t =>
    cases ht : ty_to_zig t.ty with
    | error e =>
      rw [fn_arg_typed_err t e ht]
      exact safeLines_nil
    | ok s =>
      rw [fn_arg_typed_ok t s ht]
      exact safeLines_singleton (ne_importLine_of_head_char ' ' rfl (by decide))

theorem safe_foreign_args (M : String) : ∀ (args : List FnArg),
    safeLines M (foreign_args_to_zig args).lines
  | [] => safeLines_nil
  | a :: rest => by
    simp only [foreign_args_to_zig]
    have ha := safe_fn_arg M a
    cases hr : fn_arg_to_zig a with
    | ok l =>
      rw [hr] at ha
      rw [TR.lines_append]
      exact safeLines_append ha (safe_foreign_args M rest)
    | err e l =>
      rw [hr] at ha
      exact ha
    | panicked l =>
      rw [hr] at ha
      exact ha

theorem safe_foreign_item (M : String) (link : String) (item : ForeignItem)
    (hc : foreignItemAtFree item = true) :
    safeLines M (foreign_item_to_zig link item).lines := by
  cases item with
  | otherForeign dump => exact safeLines_singleton (ne_importLine_of_atFree hc)
  | fn f =>
    simp only [foreign_item_to_zig]
    have hh : vis_to_zig f.vis ++ "extern \x22" ++ link ++ "\x22 fn " ++ f.sig.ident ++ " ("
        ≠ importLine M := by
      cases hv : f.vis with
      | public => exact ne_importLine_of_head_char 'p' rfl (by decide)
      | restricted => exact ne_importLine_of_head_char 'e' rfl (by decide)
      | inherited => exact ne_importLine_of_head_char 'e' rfl (by decide)
    have hargs := safe_foreign_args M f.sig.inputs
    cases ha : foreign_args_to_zig f.sig.inputs with
    | ok l =>
      rw [ha] at hargs
      cases hret : ret_ty_to_zig f.sig.output with
      | error e => exact safeLines_cons hh hargs
      | ok r =>
        refine safeLines_cons hh (safeLines_append hargs (safeLines_singleton ?_))
        exact ne_importLine_of_head_char (Char.ofNat 41) rfl (by decide)
    | err e l =>
      rw [ha] at hargs
      exact safeLines_cons hh hargs
    | panicked l =>
      rw [ha] at hargs
      exact safeLines_cons hh hargs

theorem safe_foreign_items (M : String) (link : String) : ∀ (items : List ForeignItem),
    (items.all foreignItemAtFree = true) →
    safeLines M (foreign_items_to_zig link items).lines
  | [], _ => safeLines_nil
  | i :: rest, h => by
    simp only [List.all_cons, Bool.and_eq_true] at h
    simp only [foreign_items_to_zig]
    have hi := safe_foreign_item M link i h.1
    cases hr : foreign_item_to_zig link i with
    | ok l =>
      rw [hr] at hi
      rw [TR.lines_append]
      exact safeLines_append hi (safe_foreign_items M link rest h.2)
    | err e l =>
      rw [hr] at hi
      exact hi
    | panicked l =>
      rw [hr] at hi
      exact hi

theorem wrap_of_ok {item : Item} {cx : Cx} {l : List String} {cx2 : Cx}
    (h : item_to_zig item cx = (TR.ok l, cx2)) :
    wrap_item_to_zig item cx = (TR.ok l, cx2) := by
  unfold wrap_item_to_zig
  rw [h]

theorem wrap_of_panicked {item : Item} {cx : Cx} {l : List String} {cx2 : Cx}
    (h : item_to_zig item cx = (TR.panicked l, cx2)) :
    wrap_item_to_zig item cx = (TR.panicked l, cx2) := by
  unfold wrap_item_to_zig
  rw [h]

/-- Helper: an item translator that emits only lines different from the
module-import line of `M` and leaves the context untouched preserves the
invariant through `wrap_item_to_zig`. -/
theorem wrap_safe_inv (M : String) (item : Item) (cx : Cx)
    (hsafe : safeLines M (item_to_zig item cx).1.lines)
    (hcx : (item_to_zig item cx).2 = cx) :
    ImportInv M cx (wrap_item_to_zig item cx).2 (wrap_item_to_zig item cx).1.lines := by
  rcases hi : item_to_zig item cx with ⟨r, cx2⟩
  rw [hi] at hsafe hcx
  simp only at hsafe hcx
  cases r with
  | ok l =>
    rw [wrap_of_ok hi, hcx]
    exact ImportInv.of_zero (count_zero_of_safe hsafe)
  | panicked l =>
    rw [wrap_of_panicked hi, hcx]
    exact ImportInv.of_zero (count_zero_of_safe hsafe)
  | err e l =>
    cases e with
    | unhandled name =>
      have hw : wrap_item_to_zig item cx =
          (TR.ok (l ++ ["// Unhandled item: " ++ name]), cx2) := by
        unfold wrap_item_to_zig
        rw [hi]
      rw [hw, hcx]
      refine ImportInv.of_zero (count_zero_of_safe ?_)
      exact safeLines_append hsafe (safeLines_singleton
        (ne_importLine_of_head_char (Char.ofNat 47) rfl (by decide)))
    | nyi =>
      have hw : wrap_item_to_zig item cx =
          (TR.ok (l ++ ["// Item not yet implemented"]), cx2) := by
        unfold wrap_item_to_zig
        rw [hi]
      rw [hw, hcx]
      refine ImportInv.of_zero (count_zero_of_safe ?_)
      exact safeLines_append hsafe (safeLines_singleton
        (ne_importLine_of_head_char (Char.ofNat 47) rfl (by decide)))
    | incorrectUsage =>
      have hw : wrap_item_to_zig item cx = (TR.err Error.incorrectUsage l, cx2) := by
        unfold wrap_item_to_zig
        rw [hi]
      rw [hw, hcx]
      exact ImportInv.of_zero (count_zero_of_safe hsafe)
    | readFile =>
      have hw : wrap_item_to_zig item cx = (TR.err Error.readFile l, cx2) := by
        unfold wrap_item_to_zig
        rw [hi]
      rw [hw, hcx]
      exact ImportInv.of_zero (count_zero_of_safe hsafe)
    | parseFile =>
      have hw : wrap_item_to_zig item cx = (TR.err Error.parseFile l, cx2) := by
        unfold wrap_item_to_zig
        rw [hi]
      rw [hw, hcx]
      exact ImportInv.of_zero (count_zero_of_safe hsafe)

/-- Every clean item preserves the module-import invariant through
`wrap_item_to_zig`. -/
theorem wrap_item_inv (M : String) (item : Item) (cx : Cx)
    (hc : cleanItem item = true) :
    ImportInv M cx (wrap_item_to_zig item cx).2 (wrap_item_to_zig item cx).1.lines := by
  cases item with
  | use u =>
    simp only [cleanItem] at hc
    cases he : expand_use_tree u.tree with
    | error e =>
      refine wrap_safe_inv M (Item.use u) cx ?_ ?_
      · simp only [item_to_zig, use_to_zig, he]
        exact safeLines_nil
      · simp only [item_to_zig, use_to_zig, he]
    | ok paths =>
      have hi : item_to_zig (Item.use u) cx =
          (TR.ok (use_paths_to_zig (vis_to_zig u.vis) paths cx).1,
            (use_paths_to_zig (vis_to_zig u.vis) paths cx).2) := by
        simp only [item_to_zig, use_to_zig, he]
      rw [wrap_of_ok hi]
      have hpaths : ∀ p ∈ paths, ∀ s ∈ p, atFree s = true :=
        expand_rec_atFree u.tree [] paths hc
          (fun s hs => absurd hs (List.not_mem_nil s)) he
      exact use_paths_inv M paths (vis_to_zig u.vis) cx hpaths (vis_to_zig_atFree u.vis)
  | type t =>
    simp only [cleanItem, Bool.and_eq_true] at hc
    refine wrap_safe_inv M (Item.type t) cx ?_ rfl
    simp only [item_to_zig, type_to_zig]
    cases ht : ty_to_zig t.ty with
    | error e => exact safeLines_nil
    | ok s =>
      refine safeLines_singleton (ne_importLine_of_atFree ?_)
      exact stmtLine_atFree t.vis t.ident s hc.1 (ty_to_zig_atFree t.ty s hc.2 ht)
  | const c =>
    simp only [cleanItem, Bool.and_eq_true] at hc
    refine wrap_safe_inv M (Item.const c) cx ?_ rfl
    refine safeLines_singleton (ne_importLine_of_atFree ?_)
    exact stmtLine_atFree c.vis c.ident (expr_to_zig c.expr) hc.1
      (expr_to_zig_atFree c.expr hc.2)
  | foreignMod fm =>
    simp only [cleanItem] at hc
    exact wrap_safe_inv M (Item.foreignMod fm) cx
      (safe_foreign_items M cx.link_name fm.items hc) rfl
  | mac m =>
    exact wrap_safe_inv M (Item.mac m) cx (mac_lines_safe M m) rfl
  | fn f =>
    exact wrap_safe_inv M (Item.fn f) cx safeLines_nil rfl
  | otherItem d =>
    simp only [cleanItem] at hc
    exact wrap_safe_inv M (Item.otherItem d) cx
      (safeLines_singleton (ne_importLine_of_atFree hc)) rfl

/-- A whole clean run preserves the module-import invariant. -/
theorem translate_inv (M : String) : ∀ (prog : List Item) (cx : Cx),
    prog.all cleanItem = true →
    ImportInv M cx (translate_items prog cx).2 (translate_items prog cx).1.lines
  | [], cx, _ => ImportInv.of_zero rfl
  | i :: rest, cx, h => by
    simp only [List.all_cons, Bool.and_eq_true] at h
    have hinv := wrap_item_inv M i cx h.1
    rcases hw : wrap_item_to_zig i cx with ⟨r, cx2⟩
    rw [hw] at hinv
    cases r with
    | ok l =>
      have ht : translate_items (i :: rest) cx =
          (TR.append l (translate_items rest cx2).1, (translate_items rest cx2).2) := by
        simp only [translate_items, hw]
      rw [ht]
      simp only [TR.lines_append]
      exact ImportInv.comp hinv (translate_inv M rest cx2 h.2)
    | err e l =>
      have ht : translate_items (i :: rest) cx = (TR.err e l, cx2) := by
        simp only [translate_items, hw]
      rw [ht]
      exact hinv
    | panicked l =>
      have ht : translate_items (i :: rest) cx = (TR.panicked l, cx2) := by
        simp only [translate_items, hw]
      rw [ht]
      exact hinv

theorem alias_mem_use_paths (vis : String) : ∀ (paths : List UsePath) (cx : Cx)
    (p : UsePath), p ∈ paths → ¬ p.headD "" = "ctypes" →
    aliasLine vis p ∈ (use_paths_to_zig vis paths cx).1
  | path :: rest, cx, p, hmem, hct => by
    by_cases h : path.headD "" = "ctypes"
    · rw [use_paths_cons_ctypes vis path rest cx h]
      rcases List.mem_cons.mp hmem with rfl | hmem2
      · exact absurd h hct
      · exact alias_mem_use_paths vis rest cx p hmem2 hct
    · by_cases hc : cx.toplevel_imports.contains (path.headD "") = true
      · rw [use_paths_cons_seen vis path rest cx h hc]
        rcases List.mem_cons.mp hmem with rfl | hmem2
        · exact List.mem_cons_self _ _
        · exact List.mem_cons_of_mem _
            (alias_mem_use_paths vis rest cx p hmem2 hct)
      · rw [use_paths_cons_fresh vis path rest cx h (Bool.eq_false_iff.mpr hc)]
        rcases List.mem_cons.mp hmem with rfl | hmem2
        · exact List.mem_cons_of_mem _ (List.mem_cons_of_mem _ (List.mem_cons_self _ _))
        · exact List.mem_cons_of_mem _ (List.mem_cons_of_mem _ (List.mem_cons_of_mem _
            (alias_mem_use_paths vis rest
              ⟨cx.link_name, path.headD "" :: cx.toplevel_imports⟩ p hmem2 hct)))

theorem translate_ok_mem : ∀ (prog : List Item) (cx : Cx) (L : List String)
    (item : Item), item ∈ prog → (translate_items prog cx).1 = TR.ok L →
    ∃ cx1 l cx2, wrap_item_to_zig item cx1 = (TR.ok l, cx2) ∧ ∀ s ∈ l, s ∈ L
  | [], _, _, item, hmem, _ => absurd hmem (List.not_mem_nil item)
  | i :: rest, cx, L, item, hmem, hok => by
    rcases hw : wrap_item_to_zig i cx with ⟨r, cx2⟩
    cases r with
    | ok l =>
      have ht : translate_items (i :: rest) cx =
          (TR.append l (translate_items rest cx2).1, (translate_items rest cx2).2) := by
        simp only [translate_items, hw]
      rw [ht] at hok
      simp only at hok
      cases hX : (translate_items rest cx2).1 with
      | ok L2 =>
        rw [hX] at hok
        simp only [TR.append] at hok
        injection hok with h2
        rcases List.mem_cons.mp hmem with rfl | hmem2
        · exact ⟨cx, l, cx2, hw, fun s hs => h2 ▸ List.mem_append_left L2 hs⟩
        · obtain ⟨cx1, l1, cx21, hw1, hsub⟩ :=
            translate_ok_mem rest cx2 L2 item hmem2 hX
          exact ⟨cx1, l1, cx21, hw1, fun s hs => h2 ▸ List.mem_append_right l (hsub s hs)⟩
      | err e L2 =>
        rw [hX] at hok
        simp only [TR.append] at hok
        exact TR.noConfusion hok
      | panicked L2 =>
        rw [hX] at hok
        simp only [TR.append] at hok
        exact TR.noConfusion hok
    | err e l =>
      have ht : translate_items (i :: rest) cx = (TR.err e l, cx2) := by
        simp only [translate_items, hw]
      rw [ht] at hok
      exact TR.noConfusion hok
    | panicked l =>
      have ht : translate_items (i :: rest) cx = (TR.panicked l, cx2) := by
        simp only [translate_items, hw]
      rw [ht] at hok
      exact TR.noConfusion hok

/-- C5: over a whole clean run started from the initial context, the
module-import declaration of any module name `M` is emitted at most once,
however many symbols are imported from it and across however many import
items; and (on a successful run) the per-symbol alias declaration is
emitted for every expanded non-`ctypes` path of every import item. -/
theorem c5_module_dedup (prog : List Item) (M : String)
    (hclean : prog.all cleanItem = true) :
    List.count (importLine M) (translate_items prog initCx).1.lines ≤ 1 ∧
    (∀ (u : ItemUse), Item.use u ∈ prog →
      ∀ (paths : List UsePath) (L : List String),
        expand_use_tree u.tree = Except.ok paths →
        (translate_items prog initCx).1 = TR.ok L →
        ∀ p ∈ paths, ¬ p.headD "" = "ctypes" →
          aliasLine (vis_to_zig u.vis) p ∈ L) := by
  constructor
  · have h := (translate_inv M prog initCx hclean).1
    have h0 : initCx.toplevel_imports.contains M = false := rfl
    rw [h0] at h
    exact le_trans h (by simp)
  · intro u hu paths L hexp hok
    obtain ⟨cx1, l, cx2, hw, hsub⟩ := translate_ok_mem prog initCx L (Item.use u) hu hok
    have hi : item_to_zig (Item.use u) cx1 =
        (TR.ok (use_paths_to_zig (vis_to_zig u.vis) paths cx1).1,
          (use_paths_to_zig (vis_to_zig u.vis) paths cx1).2) := by
      simp only [item_to_zig, use_to_zig, hexp]
    have hw2 := wrap_of_ok hi
    rw [hw] at hw2
    injection hw2 with ha hb
    injection ha with ha2
    intro p hp hpct
    refine hsub _ ?_
    rw [ha2]
    exact alias_mem_use_paths (vis_to_zig u.vis) paths cx1 p hp hpct

/-- A small concrete program: two import items drawing three symbols from
the same module `winuser`. -/
def demoProg : List Item :=
  [Item.use ⟨Visibility.public,
    UseTree.path "winuser" (UseTree.group [UseTree.name "MSG", UseTree.name "HWND"])⟩,
   Item.use ⟨Visibility.inherited, UseTree.path "winuser" (UseTree.name "POINT")⟩]

/-- Witness for C5 on `demoProg`: the module-import line for `winuser`
appears at most once, and the alias line for the expanded path
`winuser.MSG` is emitted. -/
theorem c5_module_dedup_witness :
    List.count (importLine "winuser") (translate_items demoProg initCx).1.lines ≤ 1 ∧
    aliasLine (vis_to_zig Visibility.public) ["winuser", "MSG"] ∈
      ["", importLine "winuser", "pub const MSG = winuser.MSG;",
       "pub const HWND = winuser.HWND;", "const POINT = winuser.POINT;"] :=
  ⟨(c5_module_dedup demoProg "winuser" (by decide)).1,
   (c5_module_dedup demoProg "winuser" (by decide)).2
      ⟨Visibility.public,
        UseTree.path "winuser" (UseTree.group [UseTree.name "MSG", UseTree.name "HWND"])⟩
      (List.mem_cons_self _ _)
      [["winuser", "MSG"], ["winuser", "HWND"]]
      ["", importLine "winuser", "pub const MSG = winuser.MSG;",
       "pub const HWND = winuser.HWND;", "const POINT = winuser.POINT;"]
      rfl rfl ["winuser", "MSG"] (by decide) (by decide)⟩

end WinapiZig
